import Mathlib

/-!
Verification development for the osu-to-beat-saber converter.

The definitions below are a shallow embedding of the Python sources:
generictools.py (the IntSpanDict interval index), sabertools.py (the
two-hand choreography simulator and the difficulty assembler) and the
bounding-box step of osu2saber.py.  Machine floats carrying beat times
are modelled as rationals; Python dictionaries keyed by int are
modelled as association lists that preserve insertion order.
-/

/-- A stable insertion sort: each element is inserted after every
already-placed element that compares less-or-equal, which matches the
stability guarantee of the sort used by the source. -/
def insertLe {α : Type} (le : α → α → Bool) (x : α) : List α → List α
  | [] => [x]
  | y :: ys => if le y x then y :: insertLe le x ys else x :: y :: ys

/-- Stable sort by a boolean less-or-equal relation (models Python sorted). -/
def stableSort {α : Type} (le : α → α → Bool) (l : List α) : List α :=
  l.foldl (fun acc x => insertLe le x acc) []

/-- De-duplication of integer lists (models building a Python set; the
result is sorted afterwards, so which duplicate survives is irrelevant). -/
def dedupInts : List Int → List Int
  | [] => []
  | x :: xs => if x ∈ xs then dedupInts xs else x :: dedupInts xs

/-- generictools.IntSpanDict: point events plus inclusive integer spans.
events models the insertion-ordered Python dict from int keys to lists of
values; spans models the list of ((start, end), value) pairs. -/
structure IntSpanDict (V : Type) where
  events : List (Int × List V)
  spans : List ((Int × Int) × V)

/-- Helper for append_point: if the key is present, append the value to
its list, otherwise add a fresh key at the end (dict insertion order). -/
def addEvent {V : Type} : List (Int × List V) → Int → V → List (Int × List V)
  | [], point, value => [(point, [value])]
  | (k, vs) :: rest, point, value =>
    if k = point then (k, vs ++ [value]) :: rest
    else (k, vs) :: addEvent rest point value

/-- Python events.get(point, []): the value list stored at a key. -/
def eventsGet {V : Type} : List (Int × List V) → Int → List V
  | [], _ => []
  | (k, vs) :: rest, point => if k = point then vs else eventsGet rest point

def IntSpanDict.append_point {V : Type} (d : IntSpanDict V) (point : Int) (value : V) :
    IntSpanDict V :=
  { d with events := addEvent d.events point value }

def IntSpanDict.append_span {V : Type} (d : IntSpanDict V) (span : Int × Int) (value : V) :
    IntSpanDict V :=
  { d with spans := d.spans ++ [(span, value)] }

/-- IntSpanDict._filter_span_from_point_generator. -/
def IntSpanDict.filter_span_from_point {V : Type} (d : IntSpanDict V) (point : Int) :
    List V :=
  (d.spans.filter (fun sv => decide (sv.1.1 ≤ point ∧ point ≤ sv.1.2))).map (fun sv => sv.2)

/-- IntSpanDict._filter_event_from_span_generator. -/
def IntSpanDict.filter_event_from_span {V : Type} (d : IntSpanDict V) (span : Int × Int) :
    List V :=
  ((d.events.filter (fun kv => decide (span.1 ≤ kv.1 ∧ kv.1 ≤ span.2))).map
    (fun kv => kv.2)).flatten

/-- IntSpanDict._filter_span_from_span_generator, with the source's
four-disjunct inclusive overlap test written out verbatim. -/
def IntSpanDict.filter_span_from_span {V : Type} (d : IntSpanDict V)
    (span_request : Int × Int) : List V :=
  (d.spans.filter (fun sv => decide (
    (span_request.1 ≥ sv.1.1 ∧ span_request.1 ≤ sv.1.2) ∨
    (span_request.2 ≥ sv.1.1 ∧ span_request.2 ≤ sv.1.2) ∨
    (sv.1.1 ≥ span_request.1 ∧ sv.1.1 ≤ span_request.2) ∨
    (sv.1.2 ≥ span_request.1 ∧ sv.1.2 ≤ span_request.2)))).map (fun sv => sv.2)

def IntSpanDict.active_at_point {V : Type} (d : IntSpanDict V) (point : Int) : List V :=
  eventsGet d.events point ++ d.filter_span_from_point point

def IntSpanDict.active_at_span {V : Type} (d : IntSpanDict V) (span : Int × Int) : List V :=
  d.filter_event_from_span span ++ d.filter_span_from_span span

/-- IntSpanDict.points_of_interest: sorted(set(keys) | set(flatten(spans))).
Flattening the span key pairs yields every span start AND end. -/
def IntSpanDict.points_of_interest {V : Type} (d : IntSpanDict V) : List Int :=
  stableSort (fun a b => decide (a ≤ b))
    (dedupInts (d.events.map Prod.fst ++ (d.spans.map (fun sv => [sv.1.1, sv.1.2])).flatten))

/-- Loop of map_keys over the stored spans (in order). -/
def mapKeysSpans {V : Type} (mapper : Int → Int) :
    List ((Int × Int) × V) → IntSpanDict V → IntSpanDict V
  | [], other => other
  | sv :: rest, other =>
    mapKeysSpans mapper rest
      (if mapper sv.1.1 = mapper sv.1.2 then other.append_point (mapper sv.1.1) sv.2
       else other.append_span (mapper sv.1.1, mapper sv.1.2) sv.2)

/-- Inner loop of map_keys over the values stored at one event key. -/
def mapKeysValues {V : Type} (mapper : Int → Int) (k : Int) :
    List V → IntSpanDict V → IntSpanDict V
  | [], other => other
  | v :: vs, other => mapKeysValues mapper k vs (other.append_point (mapper k) v)

/-- Loop of map_keys over the event entries (in insertion order). -/
def mapKeysEvents {V : Type} (mapper : Int → Int) :
    List (Int × List V) → IntSpanDict V → IntSpanDict V
  | [], other => other
  | kv :: rest, other => mapKeysEvents mapper rest (mapKeysValues mapper kv.1 kv.2 other)

/-- IntSpanDict.map_keys: spans whose endpoints collapse under the mapper
become point events; the remaining spans and all events are re-keyed. -/
def IntSpanDict.map_keys {V : Type} (d : IntSpanDict V) (mapper : Int → Int) :
    IntSpanDict V :=
  mapKeysEvents mapper d.events (mapKeysSpans mapper d.spans ⟨[], []⟩)

/-- The two native coordinates the bounding-box step of
convert_beatsets_osu2saber reads from each active hit object. -/
structure HitPayload where
  x : Int
  y : Int
  deriving DecidableEq

def listMin : List Int → Option Int
  | [] => none
  | x :: xs => some (xs.foldl min x)

def listMax : List Int → Option Int
  | [] => none
  | x :: xs => some (xs.foldl max x)

/-- The initial bounding box of convert_beatsets_osu2saber: min and max of
the active entries' native x and y.  The value none models the ValueError
that Python's min and max raise on an empty sequence. -/
def initial_window (active : List HitPayload) : Option ((Int × Int) × (Int × Int)) :=
  match listMin (active.map HitPayload.x), listMax (active.map HitPayload.x),
        listMin (active.map HitPayload.y), listMax (active.map HitPayload.y) with
  | some a, some b, some c, some d => some ((a, b), (c, d))
  | _, _, _, _ => none

/-- Two inclusive integer intervals share at least one point. -/
def spans_intersect (lo hi a b : Int) : Prop :=
  ∃ t : Int, lo ≤ t ∧ t ≤ hi ∧ a ≤ t ∧ t ≤ b

/-- sabertools.NoteCutDirectionEnum. -/
inductive NoteCutDirectionEnum
  | Up | Down | Left | Right | UpLeft | UpRight | DownLeft | DownRight | Any
  deriving DecidableEq

/-- NoteCutDirectionEnum.opposite, case for case from the source. -/
def NoteCutDirectionEnum.opposite : NoteCutDirectionEnum → NoteCutDirectionEnum
  | Up => Down
  | Down => Up
  | Left => Right
  | Right => Left
  | UpLeft => DownRight
  | UpRight => DownLeft
  | DownLeft => UpRight
  | DownRight => UpLeft
  | Any => Any

/-- NoteCutDirectionEnum.from_movement, with the source's if-chain kept in
order, including its three final sign cases for negative y. -/
def NoteCutDirectionEnum.from_movement (x y : Int) : NoteCutDirectionEnum :=
  if x = 0 ∧ y = 0 then Any
  else if x < 0 ∧ y = 0 then Left
  else if x > 0 ∧ y = 0 then Right
  else if x = 0 ∧ y > 0 then Up
  else if x < 0 ∧ y > 0 then UpLeft
  else if x > 0 ∧ y > 0 then UpRight
  else if x = 0 ∧ y < 0 then Up
  else if x < 0 ∧ y < 0 then UpLeft
  else if x > 0 ∧ y < 0 then UpRight
  else Any

/-- sabertools.NoteTypeEnum. -/
inductive NoteTypeEnum
  | LeftRedNote | RightBlueNote | Unused | Bomb
  deriving DecidableEq

/-- The IntEnum value, used by the source to index the hands list. -/
def NoteTypeEnum.value : NoteTypeEnum → Int
  | LeftRedNote => 0
  | RightBlueNote => 1
  | Unused => 2
  | Bomb => 3

/-- sabertools.NoteCanvasPositionEnum: the nine canvas zones. -/
inductive NoteCanvasPositionEnum
  | TopLft | TopCtr | TopRgt | MidLft | MidCtr | MidRgt | BotLft | BotCtr | BotRgt
  deriving DecidableEq

def NoteCanvasPositionEnum.value : NoteCanvasPositionEnum → Int
  | TopLft => 1
  | TopCtr => 2
  | TopRgt => 3
  | MidLft => 4
  | MidCtr => 5
  | MidRgt => 6
  | BotLft => 7
  | BotCtr => 8
  | BotRgt => 9

/-- sabertools.BeatSaberHandCoordinateHolder; the line-index and
line-layer enums are integer-valued, so both fields are integers. -/
structure BeatSaberHandCoordinateHolder where
  index : Int
  layer : Int
  deriving DecidableEq

/-- BeatSaberHandCoordinateHolder.if_follow (case for case, including the
source's diagonal offsets). -/
def BeatSaberHandCoordinateHolder.if_follow (c : BeatSaberHandCoordinateHolder) :
    NoteCutDirectionEnum → BeatSaberHandCoordinateHolder
  | NoteCutDirectionEnum.Up => ⟨c.index, c.layer + 1⟩
  | NoteCutDirectionEnum.Down => ⟨c.index, c.layer - 1⟩
  | NoteCutDirectionEnum.Left => ⟨c.index - 1, c.layer⟩
  | NoteCutDirectionEnum.Right => ⟨c.index + 1, c.layer⟩
  | NoteCutDirectionEnum.UpLeft => ⟨c.index + 1, c.layer - 1⟩
  | NoteCutDirectionEnum.UpRight => ⟨c.index + 1, c.layer + 1⟩
  | NoteCutDirectionEnum.DownLeft => ⟨c.index - 1, c.layer - 1⟩
  | NoteCutDirectionEnum.DownRight => ⟨c.index - 1, c.layer + 1⟩
  | NoteCutDirectionEnum.Any => ⟨c.index, c.layer⟩

/-- BeatSaberHandCoordinateHolder.if_goto. -/
def BeatSaberHandCoordinateHolder.if_goto (c other : BeatSaberHandCoordinateHolder) :
    NoteCutDirectionEnum :=
  NoteCutDirectionEnum.from_movement (other.index - c.index) (other.layer - c.layer)

/-- sabertools.BeatSaberCoreographyHintHolder. -/
structure BeatSaberCoreographyHintHolder where
  beat_start : ℚ
  beat_finish : ℚ
  coordinate : BeatSaberHandCoordinateHolder
  coordinate_end : BeatSaberHandCoordinateHolder
  obstacle_type : NoteTypeEnum
  cut_direction : NoteCutDirectionEnum
  deriving DecidableEq

/-- BeatSaberCoreographyHintHolder.is_arc. -/
def BeatSaberCoreographyHintHolder.is_arc (c : BeatSaberCoreographyHintHolder) : Bool :=
  decide (c.beat_start ≠ c.beat_finish)

/-- sabertools.BeatSaberHandPositionSimulator (one hand). -/
structure BeatSaberHandPositionSimulator where
  hdisp : Int
  timing : ℚ
  coordinate : BeatSaberHandCoordinateHolder
  direction : NoteCutDirectionEnum
  on_arc : Bool
  deriving DecidableEq

/-- BeatSaberHandPositionSimulator.adapt, with Python floor division and
nonnegative remainder. -/
def BeatSaberHandPositionSimulator.adapt (h : BeatSaberHandPositionSimulator)
    (canvas_pos : NoteCanvasPositionEnum) : BeatSaberHandCoordinateHolder :=
  ⟨Int.emod (canvas_pos.value - 1) 3 + h.hdisp, 2 - Int.ediv (canvas_pos.value - 1) 3⟩

/-- BeatSaberHandPositionSimulator.check_cut.  Note that the local flag
named is_arc in the source is true when start and finish coincide. -/
def BeatSaberHandPositionSimulator.check_cut (h : BeatSaberHandPositionSimulator)
    (beat_start beat_finish : ℚ) (beat_pos : NoteCanvasPositionEnum)
    (obstacle_type : NoteTypeEnum) : BeatSaberCoreographyHintHolder :=
  let is_arc : Bool := decide (beat_start = beat_finish)
  let canvas_pos := h.adapt beat_pos
  let cut0 := h.coordinate.if_goto canvas_pos
  let cut1 := if (is_arc || h.on_arc) ∧ cut0 = NoteCutDirectionEnum.Any then
      h.coordinate.if_goto (h.coordinate.if_follow h.direction)
    else cut0
  let cut2 := if (is_arc || h.on_arc) ∧ cut1 = NoteCutDirectionEnum.Any then
      h.direction.opposite
    else cut1
  let cut3 := if (is_arc || h.on_arc) ∧ cut2 = NoteCutDirectionEnum.Any then
      NoteCutDirectionEnum.Down
    else cut2
  ⟨beat_start, beat_finish, canvas_pos, canvas_pos, obstacle_type, cut3⟩

/-- BeatSaberHandPositionSimulator.cut. -/
def BeatSaberHandPositionSimulator.cut (h : BeatSaberHandPositionSimulator)
    (now : ℚ) (coreography : BeatSaberCoreographyHintHolder) :
    BeatSaberHandPositionSimulator :=
  { h with timing := now, coordinate := coreography.coordinate,
           direction := coreography.cut_direction, on_arc := coreography.is_arc }

/-- sabertools.BeatSaberHandsPositionsSimulator state: the two hands, the
ordered output identities, the record store (a dict keyed by identity),
and the two per-hand id registers. -/
structure BeatSaberHandsPositionsSimulator where
  hand0 : BeatSaberHandPositionSimulator
  hand1 : BeatSaberHandPositionSimulator
  coreography_ids : List Int
  coreography_contents : List (Int × BeatSaberCoreographyHintHolder)
  coreography_hand_ids : Int × Int
  last_coreography_hand_ids : Int × Int
  deriving DecidableEq

/-- Python dict .get on the record store (first matching key). -/
def lookupC : List (Int × BeatSaberCoreographyHintHolder) → Int →
    Option BeatSaberCoreographyHintHolder
  | [], _ => none
  | (k, c) :: rest, i => if k = i then some c else lookupC rest i

/-- Python dict assignment on the record store: overwrite the existing
key in place, else append a fresh key. -/
def setC : List (Int × BeatSaberCoreographyHintHolder) → Int →
    BeatSaberCoreographyHintHolder → List (Int × BeatSaberCoreographyHintHolder)
  | [], i, c => [(i, c)]
  | (k, c1) :: rest, i, c => if k = i then (i, c) :: rest else (k, c1) :: setC rest i c

/-- hands[i] for i in 0, 1 (the source only ever indexes with 0 or 1). -/
def handAt (st : BeatSaberHandsPositionsSimulator) (i : Int) :
    BeatSaberHandPositionSimulator :=
  if i = 0 then st.hand0 else st.hand1

def setHand (st : BeatSaberHandsPositionsSimulator) (i : Int)
    (h : BeatSaberHandPositionSimulator) : BeatSaberHandsPositionsSimulator :=
  if i = 0 then { st with hand0 := h } else { st with hand1 := h }

def lastIdAt (st : BeatSaberHandsPositionsSimulator) (i : Int) : Int :=
  if i = 0 then st.last_coreography_hand_ids.1 else st.last_coreography_hand_ids.2

/-- BeatSaberHandsPositionsSimulator.__init__. -/
def initial_simulator : BeatSaberHandsPositionsSimulator :=
  { hand0 := ⟨0, 0, ⟨1, 2⟩, NoteCutDirectionEnum.Down, true⟩,
    hand1 := ⟨1, 0, ⟨2, 2⟩, NoteCutDirectionEnum.Down, true⟩,
    coreography_ids := [],
    coreography_contents := [],
    coreography_hand_ids := (-1, -1),
    last_coreography_hand_ids := (-1, -1) }

/-- First iteration (hand 0) of the release loop at the top of move_to: a
hand whose current record has strictly passed its finish is freed, and a
freed on-arc hand has its flag cleared and its direction flipped.  A
non-(-1) id is always a stored key, so a missed lookup (Python KeyError)
is modelled as no release. -/
def release_hand0 (st : BeatSaberHandsPositionsSimulator) (now : ℚ) :
    BeatSaberHandsPositionsSimulator :=
  let cid := st.coreography_hand_ids.1
  if (cid != -1) &&
      ((lookupC st.coreography_contents cid).elim false
        (fun r => decide (r.beat_finish < now))) then
    let st1 := { st with
      last_coreography_hand_ids := (cid, st.last_coreography_hand_ids.2),
      coreography_hand_ids := (-1, st.coreography_hand_ids.2) }
    if st1.hand0.on_arc then
      let h2 := { st1.hand0 with on_arc := false, direction := st1.hand0.direction.opposite }
      { st1 with hand0 := h2 }
    else st1
  else st

/-- Second iteration (hand 1) of the release loop of move_to. -/
def release_hand1 (st : BeatSaberHandsPositionsSimulator) (now : ℚ) :
    BeatSaberHandsPositionsSimulator :=
  let cid := st.coreography_hand_ids.2
  if (cid != -1) &&
      ((lookupC st.coreography_contents cid).elim false
        (fun r => decide (r.beat_finish < now))) then
    let st1 := { st with
      last_coreography_hand_ids := (st.last_coreography_hand_ids.1, cid),
      coreography_hand_ids := (st.coreography_hand_ids.1, -1) }
    if st1.hand1.on_arc then
      let h2 := { st1.hand1 with on_arc := false, direction := st1.hand1.direction.opposite }
      { st1 with hand1 := h2 }
    else st1
  else st

def release_hands (st : BeatSaberHandsPositionsSimulator) (now : ℚ) :
    BeatSaberHandsPositionsSimulator :=
  release_hand1 (release_hand0 st now) now

/-- One availability test of move_to: the register holds -1, or the
record it points at started strictly before now. -/
def availCond (st : BeatSaberHandsPositionsSimulator) (now : ℚ) (x : Int) : Bool :=
  (x == -1) ||
    ((lookupC st.coreography_contents x).elim false (fun r => decide (r.beat_start < now)))

/-- The available_hands list comprehension of move_to, in hand order. -/
def available_hands (st : BeatSaberHandsPositionsSimulator) (now : ℚ) :
    List NoteTypeEnum :=
  (if availCond st now st.coreography_hand_ids.1 then [NoteTypeEnum.LeftRedNote] else []) ++
  (if availCond st now st.coreography_hand_ids.2 then [NoteTypeEnum.RightBlueNote] else [])

/-- A point of attention: identity, (start, finish) beats, canvas zone. -/
def PoA : Type := Int × (ℚ × ℚ) × NoteCanvasPositionEnum

def bool_lt (x y : Bool) : Bool := !x && y

/-- The sort key comparison of move_to: arcs before instants, longer
arcs first, then start beat, then zone id (stability tie-break). -/
def poa_key_le (a b : PoA) : Bool :=
  let a1 := decide (a.2.1.1 ≠ a.2.1.2)
  let b1 := decide (b.2.1.1 ≠ b.2.1.2)
  bool_lt a1 b1 ||
    (a1 == b1 && (decide (-a.2.1.2 < -b.2.1.2) ||
      (-a.2.1.2 == -b.2.1.2 && (decide (a.2.1.1 < b.2.1.1) ||
        (a.2.1.1 == b.2.1.1 && decide (a.2.2.value ≤ b.2.2.value))))))

/-- next(h for h in preferred_hands if h in available_hands): none models
the StopIteration Python raises when neither preferred hand is available. -/
def first_preferred (pref : NoteTypeEnum × NoteTypeEnum) (avail : List NoteTypeEnum) :
    Option NoteTypeEnum :=
  if pref.1 ∈ avail then some pref.1 else if pref.2 ∈ avail then some pref.2 else none

/-- The body of the inner active-hands loop of move_to for one hand:
arc-continuation smoothing on the previous record of this hand role,
the cut itself, then the commit of the new record and its identity. -/
def assign_poa (now : ℚ) (beat_id : Int) (beat_start beat_finish : ℚ)
    (beat_pos : NoteCanvasPositionEnum) (st : BeatSaberHandsPositionsSimulator)
    (hand : NoteTypeEnum) : BeatSaberHandsPositionsSimulator :=
  let last_coreography := lookupC st.coreography_contents (lastIdAt st hand.value)
  let active_hand := handAt st hand.value
  let coreography := active_hand.check_cut beat_start beat_finish beat_pos hand
  let contents1 := match last_coreography with
    | some lc =>
      if lc.beat_finish = coreography.beat_start ∧ lc.is_arc = true then
        setC st.coreography_contents (lastIdAt st hand.value)
          { lc with coordinate_end := coreography.coordinate }
      else st.coreography_contents
    | none => st.coreography_contents
  let st1 := setHand st hand.value (active_hand.cut now coreography)
  { st1 with coreography_contents := setC contents1 beat_id coreography,
             coreography_ids := st1.coreography_ids ++ [beat_id] }

/-- The per-point loop of move_to over the sorted points of attention.
Points whose start and finish both differ from now are skipped; an empty
availability list aborts the remaining points (the silent-drop early
return); none models the StopIteration of the single-hand selection. -/
def process_poas (now : ℚ) (both_hands : Bool) (pref : NoteTypeEnum × NoteTypeEnum) :
    BeatSaberHandsPositionsSimulator → List PoA →
    Option BeatSaberHandsPositionsSimulator
  | st, [] => some st
  | st, poa :: rest =>
    if now ≠ poa.2.1.1 ∧ now ≠ poa.2.1.2 then process_poas now both_hands pref st rest
    else
      let avail := available_hands st now
      if avail.length < 1 then some st
      else
        match (if both_hands then some avail
               else (first_preferred pref avail).map (fun h => [h])) with
        | none => none
        | some active_hands =>
          process_poas now both_hands pref
            (active_hands.foldl
              (fun s h => assign_poa now poa.1 poa.2.1.1 poa.2.1.2 poa.2.2 s h) st)
            rest

/-- BeatSaberHandsPositionsSimulator.move_to. -/
def move_to (st : BeatSaberHandsPositionsSimulator) (now : ℚ) (both_hands : Bool)
    (pref : NoteTypeEnum × NoteTypeEnum) (points_of_attention : List PoA) :
    Option BeatSaberHandsPositionsSimulator :=
  process_poas now both_hands pref (release_hands st now)
    (stableSort poa_key_le points_of_attention)

/-- The simulator states reachable from a fresh instance through
successful move_to calls. -/
inductive Reachable : BeatSaberHandsPositionsSimulator → Prop
  | init : Reachable initial_simulator
  | step (s s2 : BeatSaberHandsPositionsSimulator) (now : ℚ) (both_hands : Bool)
      (pref : NoteTypeEnum × NoteTypeEnum) (poas : List PoA) :
      Reachable s → move_to s now both_hands pref poas = some s2 → Reachable s2

/-- sabertools.BeatSaberDifficultyNote. -/
structure BeatSaberDifficultyNote where
  time : ℚ
  lineIndex : Int
  lineLayer : Int
  type : NoteTypeEnum
  cutDirection : NoteCutDirectionEnum
  deriving DecidableEq

/-- sabertools.BeatSaberDifficultySlider (slider-mid-anchor mode kept as
its integer value, 0 = Straight). -/
structure BeatSaberDifficultySlider where
  colorType : NoteTypeEnum
  headTime : ℚ
  headLineIndex : Int
  headLineLayer : Int
  headControlPointLengthMultiplier : ℚ
  headCutDirection : NoteCutDirectionEnum
  tailTime : ℚ
  tailLineIndex : Int
  tailLineLayer : Int
  tailControlPointLengthMultiplier : ℚ
  tailCutDirection : NoteCutDirectionEnum
  sliderMidAnchorMode : Int
  deriving DecidableEq

/-- sabertools.BeatSaberDifficultyObstacle (type kept as its integer
value, 0 = FullHeightWall). -/
structure BeatSaberDifficultyObstacle where
  time : ℚ
  lineIndex : Int
  type : Int
  duration : ℚ
  width : Int
  deriving DecidableEq

/-- The three record lists of sabertools.BeatSaberDifficultyV260 that
build_coreography fills. -/
structure BeatSaberDifficultyV260 where
  notes : List BeatSaberDifficultyNote
  sliders : List BeatSaberDifficultySlider
  obstacles : List BeatSaberDifficultyObstacle
  deriving DecidableEq

def note_of (c : BeatSaberCoreographyHintHolder) : BeatSaberDifficultyNote :=
  ⟨c.beat_start, c.coordinate.index, c.coordinate.layer, c.obstacle_type, c.cut_direction⟩

/-- The slider emitted for an arc record: tail direction is the opposite
of the head direction, as in the source. -/
def slider_of (c : BeatSaberCoreographyHintHolder) : BeatSaberDifficultySlider :=
  ⟨c.obstacle_type, c.beat_start, c.coordinate.index, c.coordinate.layer, 1,
   c.cut_direction, c.beat_finish, c.coordinate_end.index, c.coordinate_end.layer, 1,
   c.cut_direction.opposite, 0⟩

/-- The walk of build_coreography over the ordered identity list: each
identity is looked up in the record store (none models the KeyError of a
missing key), one note is emitted, and arcs also emit a slider. -/
def build_notes_sliders (contents : List (Int × BeatSaberCoreographyHintHolder)) :
    List Int → Option (List BeatSaberDifficultyNote × List BeatSaberDifficultySlider)
  | [] => some ([], [])
  | i :: rest =>
    match lookupC contents i with
    | none => none
    | some c =>
      match build_notes_sliders contents rest with
      | none => none
      | some (ns, ss) =>
        some (note_of c :: ns, (if c.is_arc then [slider_of c] else []) ++ ss)

/-- Python round (half to even) on a rational. -/
def python_round (q : ℚ) : Int :=
  if q - ⌊q⌋ = 1 / 2 then (if ⌊q⌋ % 2 = 0 then ⌊q⌋ else ⌊q⌋ + 1) else round q

/-- The break walls of build_coreography: one full-height obstacle at
each extreme column per break, with the duration snapped to quarters. -/
def break_obstacles (breaks : List (ℚ × ℚ)) : List BeatSaberDifficultyObstacle :=
  (breaks.map (fun se =>
    [⟨se.1, 0, 0, (python_round ((se.2 - se.1) * 4) : ℚ) / 4, 1⟩,
     ⟨se.1, 3, 0, (python_round ((se.2 - se.1) * 4) : ℚ) / 4, 1⟩])).flatten

/-- BeatSaberHandsPositionsSimulator.build_coreography. -/
def build_coreography (st : BeatSaberHandsPositionsSimulator)
    (breaks : List (ℚ × ℚ)) : Option BeatSaberDifficultyV260 :=
  (build_notes_sliders st.coreography_contents st.coreography_ids).map
    (fun p => ⟨p.1, p.2, break_obstacles breaks⟩)

/-- A state with hand 0 busy on a stored record, used to exercise the
release branch of move_to. -/
def busy_record : BeatSaberCoreographyHintHolder :=
  ⟨0, 2, ⟨1, 1⟩, ⟨1, 1⟩, NoteTypeEnum.LeftRedNote, NoteCutDirectionEnum.Up⟩

def busy_state : BeatSaberHandsPositionsSimulator :=
  { initial_simulator with
    coreography_hand_ids := (5, -1),
    coreography_contents := [(5, busy_record)] }

/-- A one-arc state used to exercise build_coreography. -/
def arc_record : BeatSaberCoreographyHintHolder :=
  ⟨0, 1, ⟨1, 2⟩, ⟨2, 2⟩, NoteTypeEnum.LeftRedNote, NoteCutDirectionEnum.Left⟩

def arc_state : BeatSaberHandsPositionsSimulator :=
  { initial_simulator with
    coreography_ids := [1],
    coreography_contents := [(1, arc_record)] }

theorem mem_insertLe {α : Type} (le : α → α → Bool) (x a : α) (l : List α) :
    a ∈ insertLe le x l ↔ a = x ∨ a ∈ l := by
  induction l with
  | nil => simp [insertLe]
  | cons y ys ih =>
    unfold insertLe
    by_cases h : le y x = true
    · rw [if_pos h]
      simp only [List.mem_cons, ih]
      tauto
    · rw [if_neg h]
      simp only [List.mem_cons]

theorem insertLe_perm {α : Type} (le : α → α → Bool) (x : α) (l : List α) :
    List.Perm (insertLe le x l) (x :: l) := by
  induction l with
  | nil => simp [insertLe]
  | cons y ys ih =>
    unfold insertLe
    by_cases h : le y x = true
    · rw [if_pos h]
      exact List.Perm.trans (List.Perm.cons y ih) (List.Perm.swap x y ys)
    · rw [if_neg h]

theorem stableSort_perm_aux {α : Type} (le : α → α → Bool) (l acc : List α) :
    List.Perm (l.foldl (fun acc x => insertLe le x acc) acc) (acc ++ l) := by
  induction l generalizing acc with
  | nil => simp
  | cons x xs ih =>
    simp only [List.foldl_cons]
    refine List.Perm.trans (ih (insertLe le x acc)) ?_
    refine List.Perm.trans (List.Perm.append_right xs (insertLe_perm le x acc)) ?_
    exact List.perm_middle.symm

theorem stableSort_perm {α : Type} (le : α → α → Bool) (l : List α) :
    List.Perm (stableSort le l) l := by
  simpa [stableSort] using stableSort_perm_aux le l []

theorem mem_stableSort {α : Type} (le : α → α → Bool) (a : α) (l : List α) :
    a ∈ stableSort le l ↔ a ∈ l :=
  (stableSort_perm le l).mem_iff

theorem mem_dedupInts (a : Int) (l : List Int) : a ∈ dedupInts l ↔ a ∈ l := by
  induction l with
  | nil => simp [dedupInts]
  | cons x xs ih =>
    unfold dedupInts
    by_cases h : x ∈ xs
    · rw [if_pos h, ih]
      simp only [List.mem_cons]
      constructor
      · exact Or.inr
      · rintro (rfl | h2)
        · exact h
        · exact h2
    · rw [if_neg h]
      simp only [List.mem_cons, ih]

theorem nodup_dedupInts (l : List Int) : (dedupInts l).Nodup := by
  induction l with
  | nil => simp [dedupInts]
  | cons x xs ih =>
    unfold dedupInts
    by_cases h : x ∈ xs
    · rw [if_pos h]
      exact ih
    · rw [if_neg h]
      exact List.Nodup.cons (fun hmem => h ((mem_dedupInts x xs).mp hmem)) ih

theorem pairwise_insertLe_int (x : Int) (l : List Int)
    (h : l.Pairwise (· ≤ ·)) :
    (insertLe (fun a b => decide (a ≤ b)) x l).Pairwise (· ≤ ·) := by
  induction l with
  | nil => simp [insertLe]
  | cons y ys ih =>
    rw [List.pairwise_cons] at h
    obtain ⟨hy, hys⟩ := h
    unfold insertLe
    by_cases hle : (decide (y ≤ x) : Bool) = true
    · rw [if_pos hle, List.pairwise_cons]
      refine ⟨?_, ih hys⟩
      intro b hb
      rcases (mem_insertLe _ x b ys).mp hb with rfl | hb2
      · exact of_decide_eq_true hle
      · exact hy b hb2
    · rw [if_neg hle, List.pairwise_cons]
      have hxy : x ≤ y := le_of_not_le (fun hc => hle (decide_eq_true hc))
      refine ⟨?_, List.pairwise_cons.mpr ⟨hy, hys⟩⟩
      intro b hb
      rcases List.mem_cons.mp hb with rfl | hb2
      · exact hxy
      · exact le_trans hxy (hy b hb2)

theorem pairwise_stableSort_int_aux (l acc : List Int) (hacc : acc.Pairwise (· ≤ ·)) :
    (l.foldl (fun acc x => insertLe (fun a b => decide (a ≤ b)) x acc) acc).Pairwise
      (· ≤ ·) := by
  induction l generalizing acc with
  | nil => simpa
  | cons x xs ih =>
    simp only [List.foldl_cons]
    exact ih _ (pairwise_insertLe_int x acc hacc)

theorem mem_points_of_interest {V : Type} (d : IntSpanDict V) (x : Int) :
    x ∈ d.points_of_interest ↔
      x ∈ d.events.map Prod.fst ∨ ∃ sv, sv ∈ d.spans ∧ (x = sv.1.1 ∨ x = sv.1.2) := by
  unfold IntSpanDict.points_of_interest
  rw [mem_stableSort, mem_dedupInts, List.mem_append]
  simp only [List.mem_flatten, List.mem_map]
  constructor
  · rintro (h | ⟨l, ⟨sv, hsv, rfl⟩, hx⟩)
    · exact Or.inl h
    · exact Or.inr ⟨sv, hsv, by simpa using hx⟩
  · rintro (h | ⟨sv, hsv, hx⟩)
    · exact Or.inl h
    · exact Or.inr ⟨[sv.1.1, sv.1.2], ⟨sv, hsv, rfl⟩, by simpa using hx⟩

/-- C2 (corrected): points_of_interest returns the sorted, de-duplicated
set of all point-event keys together with BOTH endpoints (start and end)
of every stored span; span ends are included, contrary to the claim. -/
theorem points_of_interest_keys_and_span_endpoints {V : Type} (d : IntSpanDict V) :
    (∀ x : Int, x ∈ d.points_of_interest ↔
      ((∃ vs, (x, vs) ∈ d.events) ∨ ∃ sv, sv ∈ d.spans ∧ (x = sv.1.1 ∨ x = sv.1.2))) ∧
    d.points_of_interest.Pairwise (· < ·) := by
  constructor
  · intro x
    rw [mem_points_of_interest]
    have hk : x ∈ d.events.map Prod.fst ↔ ∃ vs, (x, vs) ∈ d.events := by
      simp only [List.mem_map]
      constructor
      · rintro ⟨⟨k, vs⟩, hmem, rfl⟩
        exact ⟨vs, hmem⟩
      · rintro ⟨vs, hmem⟩
        exact ⟨(x, vs), hmem, rfl⟩
    rw [hk]
  · have hperm := stableSort_perm (fun a b => decide (a ≤ b))
      (dedupInts (d.events.map Prod.fst ++ (d.spans.map (fun sv => [sv.1.1, sv.1.2])).flatten))
    have hle : d.points_of_interest.Pairwise (· ≤ ·) :=
      pairwise_stableSort_int_aux _ [] (by simp)
    have hnd : d.points_of_interest.Nodup :=
      List.Perm.nodup hperm.symm (nodup_dedupInts _)
    exact (List.Pairwise.and hle hnd).imp (fun hab => lt_of_le_of_ne hab.1 hab.2)

/-- C2 counterexample: after append_span((5,9), v) on an otherwise empty
index, points_of_interest() returns [5, 9], not [5]. -/
theorem points_of_interest_span_end_example :
    (IntSpanDict.mk [] [(((5 : Int), (9 : Int)), (0 : Int))]).points_of_interest = [5, 9] ∧
    (IntSpanDict.mk [] [(((5 : Int), (9 : Int)), (0 : Int))]).points_of_interest ≠ [5] := by
  constructor
  · decide
  · decide

/-- C6: active_at_span includes a stored span value whenever the closed
query interval and the closed stored interval intersect (inclusive on
both ends), and for a single-span index membership is exactly
equivalent to that inclusive intersection. -/
theorem active_at_span_inclusive_overlap {V : Type} (a b lo hi : Int) (v : V)
    (hab : a ≤ b) (hq : lo ≤ hi) :
    (∀ d : IntSpanDict V, ((a, b), v) ∈ d.spans → spans_intersect lo hi a b →
        v ∈ d.active_at_span (lo, hi)) ∧
    (v ∈ (IntSpanDict.mk [] [((a, b), v)]).active_at_span (lo, hi) ↔
        spans_intersect lo hi a b) := by
  have hiff : ((lo ≥ a ∧ lo ≤ b) ∨ (hi ≥ a ∧ hi ≤ b) ∨
      (a ≥ lo ∧ a ≤ hi) ∨ (b ≥ lo ∧ b ≤ hi)) ↔ spans_intersect lo hi a b := by
    constructor
    · intro h
      exact ⟨max a lo, by omega, by omega, by omega, by omega⟩
    · rintro ⟨t, h1, h2, h3, h4⟩
      omega
  constructor
  · intro d hmem hint
    unfold IntSpanDict.active_at_span
    apply List.mem_append_right
    unfold IntSpanDict.filter_span_from_span
    apply List.mem_map.mpr
    refine ⟨((a, b), v), List.mem_filter.mpr ⟨hmem, decide_eq_true (hiff.mpr hint)⟩, rfl⟩
  · unfold IntSpanDict.active_at_span
    constructor
    · intro hv
      rcases List.mem_append.mp hv with h1 | h2
      · exfalso
        simp [IntSpanDict.filter_event_from_span] at h1
      · unfold IntSpanDict.filter_span_from_span at h2
        rcases List.mem_map.mp h2 with ⟨sv, hsv, hveq⟩
        obtain ⟨hsv1, hsv2⟩ := List.mem_filter.mp hsv
        have hsv3 : sv = ((a, b), v) := by simpa using hsv1
        subst hsv3
        exact hiff.mp (of_decide_eq_true hsv2)
    · intro hint
      apply List.mem_append_right
      unfold IntSpanDict.filter_span_from_span
      apply List.mem_map.mpr
      refine ⟨((a, b), v), List.mem_filter.mpr ⟨by simp, decide_eq_true (hiff.mpr hint)⟩, rfl⟩

/-- C6 witness at the boundary cases of the claim: the stored span
(10,20) is active for the query (20,30) and not for (21,30). -/
theorem active_at_span_inclusive_overlap_witness :
    ((0 : Int) ∈ (IntSpanDict.mk [] [(((10 : Int), (20 : Int)), (0 : Int))]).active_at_span
      (20, 30)) ∧
    ¬ ((0 : Int) ∈ (IntSpanDict.mk [] [(((10 : Int), (20 : Int)), (0 : Int))]).active_at_span
      (21, 30)) := by
  constructor
  · exact (active_at_span_inclusive_overlap 10 20 20 30 0 (by decide) (by decide)).2.mpr
      ⟨20, by omega, by omega, by omega, by omega⟩
  · intro h
    obtain ⟨t, h1, h2, h3, h4⟩ :=
      (active_at_span_inclusive_overlap 10 20 21 30 0 (by decide) (by decide)).2.mp h
    omega

theorem eventsGet_mem {V : Type} (es : List (Int × List V)) (p : Int)
    (h : p ∈ es.map Prod.fst) : (p, eventsGet es p) ∈ es := by
  induction es with
  | nil => simp at h
  | cons kv rest ih =>
    obtain ⟨k, vs⟩ := kv
    by_cases hk : k = p
    · subst hk
      simp [eventsGet]
    · simp only [List.map_cons, List.mem_cons] at h
      rcases h with h1 | h2
      · exact absurd h1.symm hk
      · have hrec := ih h2
        unfold eventsGet
        rw [if_neg hk]
        exact List.mem_cons_of_mem _ hrec

theorem initial_window_isSome (l : List HitPayload) (h : l ≠ []) :
    (initial_window l).isSome = true := by
  cases l with
  | nil => exact absurd rfl h
  | cons x xs => rfl

/-- C8 (corrected): the min/max bounding-box step would error on an empty
active set (it is not a skipped no-op), but the active set at every
point of interest of a well-formed index (spans with start at most end,
event keys with non-empty value lists) is never empty, so the
computation never meets an empty set. -/
theorem bounding_box_defined_at_points_of_interest (d : IntSpanDict HitPayload)
    (hspans : ∀ sv ∈ d.spans, sv.1.1 ≤ sv.1.2)
    (hevents : ∀ kv ∈ d.events, kv.2 ≠ []) :
    ∀ p ∈ d.points_of_interest,
      d.active_at_point p ≠ [] ∧ (initial_window (d.active_at_point p)).isSome = true := by
  intro p hp
  have hmem := (mem_points_of_interest d p).mp hp
  have hne : d.active_at_point p ≠ [] := by
    rcases hmem with hk | ⟨sv, hsv, hend⟩
    · have h1 := eventsGet_mem d.events p hk
      have h2 := hevents _ h1
      unfold IntSpanDict.active_at_point
      intro hcontra
      exact h2 (List.append_eq_nil.mp hcontra).1
    · have hwf := hspans sv hsv
      have hin : sv.2 ∈ d.filter_span_from_point p := by
        unfold IntSpanDict.filter_span_from_point
        apply List.mem_map.mpr
        refine ⟨sv, List.mem_filter.mpr ⟨hsv, decide_eq_true ?_⟩, rfl⟩
        rcases hend with rfl | rfl
        · exact ⟨le_refl _, hwf⟩
        · exact ⟨hwf, le_refl _⟩
      exact List.ne_nil_of_mem (List.mem_append_right _ hin)
  exact ⟨hne, initial_window_isSome _ hne⟩

/-- C8 counterexample: on an empty active list the bounding-box min/max
step produces the error value (modelling the raised ValueError) instead
of being treated as a skipped no-op. -/
theorem initial_window_empty_is_error : initial_window [] = none := rfl

/-- C8 witness: a concrete well-formed index whose point of interest 3
has a non-empty active set accepted by the bounding-box step. -/
theorem bounding_box_defined_witness :
    (initial_window ((IntSpanDict.mk [((3 : Int), [HitPayload.mk 1 2])]
      [(((5 : Int), (9 : Int)), HitPayload.mk 0 0)]).active_at_point 3)).isSome = true :=
  (bounding_box_defined_at_points_of_interest
    (IntSpanDict.mk [((3 : Int), [HitPayload.mk 1 2])]
      [(((5 : Int), (9 : Int)), HitPayload.mk 0 0)])
    (by
      intro sv hsv
      rw [List.mem_singleton] at hsv
      subst hsv
      decide)
    (by
      intro kv hkv
      rw [List.mem_singleton] at hkv
      subst hkv
      decide)
    3 (by decide)).2

theorem eventsGet_addEvent_self {V : Type} (es : List (Int × List V)) (k : Int) (v : V) :
    eventsGet (addEvent es k v) k = eventsGet es k ++ [v] := by
  induction es with
  | nil => simp [addEvent, eventsGet]
  | cons kv rest ih =>
    obtain ⟨k1, vs⟩ := kv
    unfold addEvent
    by_cases hk : k1 = k
    · rw [if_pos hk]
      subst hk
      simp [eventsGet]
    · rw [if_neg hk]
      unfold eventsGet
      rw [if_neg hk, if_neg hk]
      exact ih

theorem eventsGet_addEvent_ne {V : Type} (es : List (Int × List V)) (k k2 : Int) (v : V)
    (h : k2 ≠ k) : eventsGet (addEvent es k2 v) k = eventsGet es k := by
  induction es with
  | nil => simp [addEvent, eventsGet, h]
  | cons kv rest ih =>
    obtain ⟨k1, vs⟩ := kv
    unfold addEvent
    by_cases hk : k1 = k2
    · rw [if_pos hk]
      subst hk
      unfold eventsGet
      rw [if_neg h, if_neg h]
    · rw [if_neg hk]
      unfold eventsGet
      by_cases hk2 : k1 = k
      · rw [if_pos hk2, if_pos hk2]
      · rw [if_neg hk2, if_neg hk2]
        exact ih

theorem mem_eventsGet_addEvent {V : Type} (es : List (Int × List V)) (k k2 : Int)
    (v w : V) (h : w ∈ eventsGet es k) : w ∈ eventsGet (addEvent es k2 v) k := by
  by_cases hk : k2 = k
  · subst hk
    rw [eventsGet_addEvent_self]
    exact List.mem_append_left _ h
  · rw [eventsGet_addEvent_ne es k k2 v hk]
    exact h

theorem mapKeysSpans_preserves_event {V : Type} (f : Int → Int)
    (l : List ((Int × Int) × V)) (o : IntSpanDict V) (k : Int) (w : V)
    (h : w ∈ eventsGet o.events k) :
    w ∈ eventsGet (mapKeysSpans f l o).events k := by
  induction l generalizing o with
  | nil => exact h
  | cons sv rest ih =>
    unfold mapKeysSpans
    by_cases hc : f sv.1.1 = f sv.1.2
    · rw [if_pos hc]
      exact ih _ (mem_eventsGet_addEvent o.events k (f sv.1.1) sv.2 w h)
    · rw [if_neg hc]
      exact ih _ h

theorem mapKeysSpans_preserves_span {V : Type} (f : Int → Int)
    (l : List ((Int × Int) × V)) (o : IntSpanDict V) (sv2 : (Int × Int) × V)
    (h : sv2 ∈ o.spans) : sv2 ∈ (mapKeysSpans f l o).spans := by
  induction l generalizing o with
  | nil => exact h
  | cons sv rest ih =>
    unfold mapKeysSpans
    by_cases hc : f sv.1.1 = f sv.1.2
    · rw [if_pos hc]
      exact ih _ h
    · rw [if_neg hc]
      exact ih _ (List.mem_append_left _ h)

theorem mapKeysValues_spans {V : Type} (f : Int → Int) (k : Int) (vs : List V)
    (o : IntSpanDict V) : (mapKeysValues f k vs o).spans = o.spans := by
  induction vs generalizing o with
  | nil => rfl
  | cons v rest ih => exact ih _

theorem mapKeysEvents_spans {V : Type} (f : Int → Int) (l : List (Int × List V))
    (o : IntSpanDict V) : (mapKeysEvents f l o).spans = o.spans := by
  induction l generalizing o with
  | nil => rfl
  | cons kv rest ih =>
    unfold mapKeysEvents
    rw [ih, mapKeysValues_spans]

theorem mapKeysValues_preserves_event {V : Type} (f : Int → Int) (k0 : Int)
    (vs : List V) (o : IntSpanDict V) (k : Int) (w : V)
    (h : w ∈ eventsGet o.events k) : w ∈ eventsGet (mapKeysValues f k0 vs o).events k := by
  induction vs generalizing o with
  | nil => exact h
  | cons v rest ih =>
    exact ih _ (mem_eventsGet_addEvent o.events k (f k0) v w h)

theorem mapKeysEvents_preserves_event {V : Type} (f : Int → Int)
    (l : List (Int × List V)) (o : IntSpanDict V) (k : Int) (w : V)
    (h : w ∈ eventsGet o.events k) : w ∈ eventsGet (mapKeysEvents f l o).events k := by
  induction l generalizing o with
  | nil => exact h
  | cons kv rest ih =>
    exact ih _ (mapKeysValues_preserves_event f kv.1 kv.2 o k w h)

theorem mapKeysSpans_event_of_mem {V : Type} (f : Int → Int)
    (l : List ((Int × Int) × V)) (o : IntSpanDict V) (sv : (Int × Int) × V)
    (hm : sv ∈ l) (hcol : f sv.1.1 = f sv.1.2) :
    sv.2 ∈ eventsGet (mapKeysSpans f l o).events (f sv.1.1) := by
  induction l generalizing o with
  | nil => simp at hm
  | cons sv1 rest ih =>
    rcases List.mem_cons.mp hm with rfl | htail
    · unfold mapKeysSpans
      rw [if_pos hcol]
      apply mapKeysSpans_preserves_event
      show sv.2 ∈ eventsGet (addEvent o.events (f sv.1.1) sv.2) (f sv.1.1)
      rw [eventsGet_addEvent_self]
      exact List.mem_append_right _ (List.mem_singleton.mpr rfl)
    · unfold mapKeysSpans
      by_cases hc : f sv1.1.1 = f sv1.1.2
      · rw [if_pos hc]
        exact ih _ htail
      · rw [if_neg hc]
        exact ih _ htail

theorem mapKeysSpans_span_of_mem {V : Type} (f : Int → Int)
    (l : List ((Int × Int) × V)) (o : IntSpanDict V) (sv : (Int × Int) × V)
    (hm : sv ∈ l) (hne : f sv.1.1 ≠ f sv.1.2) :
    ((f sv.1.1, f sv.1.2), sv.2) ∈ (mapKeysSpans f l o).spans := by
  induction l generalizing o with
  | nil => simp at hm
  | cons sv1 rest ih =>
    rcases List.mem_cons.mp hm with rfl | htail
    · unfold mapKeysSpans
      rw [if_neg hne]
      apply mapKeysSpans_preserves_span
      exact List.mem_append_right _ (List.mem_singleton.mpr rfl)
    · unfold mapKeysSpans
      by_cases hc : f sv1.1.1 = f sv1.1.2
      · rw [if_pos hc]
        exact ih _ htail
      · rw [if_neg hc]
        exact ih _ htail

theorem mapKeysSpans_no_degenerate {V : Type} (f : Int → Int)
    (l : List ((Int × Int) × V)) (o : IntSpanDict V)
    (inv : ∀ sv ∈ o.spans, sv.1.1 ≠ sv.1.2) :
    ∀ sv ∈ (mapKeysSpans f l o).spans, sv.1.1 ≠ sv.1.2 := by
  induction l generalizing o with
  | nil => exact inv
  | cons sv1 rest ih =>
    unfold mapKeysSpans
    by_cases hc : f sv1.1.1 = f sv1.1.2
    · rw [if_pos hc]
      exact ih _ inv
    · rw [if_neg hc]
      apply ih
      intro sv2 hsv2
      rcases List.mem_append.mp hsv2 with hold | hnew
      · exact inv sv2 hold
      · rw [List.mem_singleton] at hnew
        subst hnew
        exact hc

/-- C9: map_keys turns a stored span whose endpoints collapse under the
key transform into a point event at the collapsed key, keeps spans with
distinct transformed endpoints as spans, and never produces a
zero-length span. -/
theorem map_keys_degenerate_spans {V : Type} (d : IntSpanDict V) (f : Int → Int) :
    (∀ sv ∈ d.spans,
      (f sv.1.1 = f sv.1.2 → sv.2 ∈ eventsGet (d.map_keys f).events (f sv.1.1)) ∧
      (f sv.1.1 ≠ f sv.1.2 → ((f sv.1.1, f sv.1.2), sv.2) ∈ (d.map_keys f).spans)) ∧
    (∀ sv ∈ (d.map_keys f).spans, sv.1.1 ≠ sv.1.2) := by
  constructor
  · intro sv hsv
    constructor
    · intro hcol
      unfold IntSpanDict.map_keys
      exact mapKeysEvents_preserves_event f d.events _ _ _
        (mapKeysSpans_event_of_mem f d.spans ⟨[], []⟩ sv hsv hcol)
    · intro hne
      unfold IntSpanDict.map_keys
      rw [mapKeysEvents_spans]
      exact mapKeysSpans_span_of_mem f d.spans ⟨[], []⟩ sv hsv hne
  · unfold IntSpanDict.map_keys
    rw [mapKeysEvents_spans]
    exact mapKeysSpans_no_degenerate f d.spans ⟨[], []⟩ (by intro sv hsv; simp at hsv)

/-- C9 witness: the span (1,3) collapses under a constant transform and
its value lands in the point-event store at the collapsed key. -/
theorem map_keys_degenerate_spans_witness :
    (0 : Int) ∈ eventsGet
      ((IntSpanDict.mk [] [(((1 : Int), (3 : Int)), (0 : Int))]).map_keys
        (fun _ => 0)).events 0 :=
  ((map_keys_degenerate_spans (IntSpanDict.mk [] [(((1 : Int), (3 : Int)), (0 : Int))])
      (fun _ => 0)).1 ((1, 3), 0) (List.mem_singleton.mpr rfl)).1 rfl

/-- C5 (code bug): from_movement sends downward movement vectors to the
Up-family directions: (0,-1) yields Up, (-1,-1) yields UpLeft and
(1,-1) yields UpRight, where the claim expects Down, DownLeft and
DownRight. -/
theorem from_movement_downward_failing_inputs :
    NoteCutDirectionEnum.from_movement 0 (-1) = NoteCutDirectionEnum.Up ∧
    NoteCutDirectionEnum.from_movement (-1) (-1) = NoteCutDirectionEnum.UpLeft ∧
    NoteCutDirectionEnum.from_movement 1 (-1) = NoteCutDirectionEnum.UpRight := by
  refine ⟨by decide, by decide, by decide⟩

theorem build_notes_sliders_tail_opposite
    (contents : List (Int × BeatSaberCoreographyHintHolder)) (ids : List Int)
    (ns : List BeatSaberDifficultyNote) (ss : List BeatSaberDifficultySlider)
    (h : build_notes_sliders contents ids = some (ns, ss)) :
    ∀ sl ∈ ss, sl.tailCutDirection = sl.headCutDirection.opposite := by
  induction ids generalizing ns ss with
  | nil =>
    unfold build_notes_sliders at h
    injection h with h2
    injection h2 with h3 h4
    subst h4
    intro sl hsl
    simp at hsl
  | cons i rest ih =>
    unfold build_notes_sliders at h
    cases hc : lookupC contents i with
    | none => rw [hc] at h; exact absurd h (by simp)
    | some c =>
      rw [hc] at h
      cases hr : build_notes_sliders contents rest with
      | none => rw [hr] at h; exact absurd h (by simp)
      | some p =>
        obtain ⟨ns2, ss2⟩ := p
        rw [hr] at h
        injection h with h2
        injection h2 with h3 h4
        subst h4
        intro sl hsl
        rcases List.mem_append.mp hsl with harc | hrest
        · by_cases harcb : c.is_arc = true
          · rw [if_pos harcb] at harc
            rw [List.mem_singleton] at harc
            subst harc
            rfl
          · rw [if_neg harcb] at harc
            simp at harc
        · exact ih ns2 ss2 hr sl hrest

/-- C7: opposite is an involution on every cut direction (in particular
on the 8 concrete ones), opposite(Any) = Any, and every slider emitted
by build_coreography has its tail cut direction equal to the opposite of
its head cut direction. -/
theorem opposite_involution_and_slider_tails :
    (∀ d : NoteCutDirectionEnum, d.opposite.opposite = d) ∧
    (NoteCutDirectionEnum.Any.opposite = NoteCutDirectionEnum.Any) ∧
    (∀ (st : BeatSaberHandsPositionsSimulator) (breaks : List (ℚ × ℚ))
        (diff : BeatSaberDifficultyV260),
      build_coreography st breaks = some diff →
      ∀ sl ∈ diff.sliders, sl.tailCutDirection = sl.headCutDirection.opposite) := by
  refine ⟨by intro d; cases d <;> rfl, rfl, ?_⟩
  intro st breaks diff h sl hsl
  unfold build_coreography at h
  cases hb : build_notes_sliders st.coreography_contents st.coreography_ids with
  | none => rw [hb] at h; exact absurd h (by simp)
  | some p =>
    rw [hb] at h
    obtain ⟨ns, ss⟩ := p
    injection h with h2
    subst h2
    exact build_notes_sliders_tail_opposite st.coreography_contents st.coreography_ids
      ns ss hb sl hsl

/-- C7 witness: the slider of the concrete one-arc state has its tail
direction equal to the opposite of its head direction. -/
theorem opposite_involution_and_slider_tails_witness :
    (slider_of arc_record).tailCutDirection =
      (slider_of arc_record).headCutDirection.opposite :=
  (opposite_involution_and_slider_tails).2.2 arc_state []
    ⟨[note_of arc_record], [slider_of arc_record], []⟩ rfl
    (slider_of arc_record) (List.mem_singleton.mpr rfl)

theorem assign_poa_state (now : ℚ) (i : Int) (bs bf : ℚ) (pos : NoteCanvasPositionEnum)
    (st : BeatSaberHandsPositionsSimulator) (h : NoteTypeEnum) :
    (assign_poa now i bs bf pos st h).coreography_ids = st.coreography_ids ++ [i] ∧
    (assign_poa now i bs bf pos st h).coreography_hand_ids = st.coreography_hand_ids ∧
    (assign_poa now i bs bf pos st h).last_coreography_hand_ids =
      st.last_coreography_hand_ids := by
  unfold assign_poa setHand
  dsimp only
  split <;> exact ⟨rfl, rfl, rfl⟩

theorem foldl_assign_state (now : ℚ) (i : Int) (bs bf : ℚ)
    (pos : NoteCanvasPositionEnum) (active : List NoteTypeEnum)
    (st : BeatSaberHandsPositionsSimulator) :
    ((active.foldl (fun s h => assign_poa now i bs bf pos s h) st).coreography_ids =
      st.coreography_ids ++ active.map (fun _ => i)) ∧
    ((active.foldl (fun s h => assign_poa now i bs bf pos s h) st).coreography_hand_ids =
      st.coreography_hand_ids) ∧
    ((active.foldl (fun s h => assign_poa now i bs bf pos s h)
        st).last_coreography_hand_ids = st.last_coreography_hand_ids) := by
  induction active generalizing st with
  | nil => exact ⟨by simp, rfl, rfl⟩
  | cons a rest ih =>
    simp only [List.foldl_cons, List.map_cons]
    obtain ⟨hi1, hi2, hi3⟩ := ih (assign_poa now i bs bf pos st a)
    obtain ⟨ha1, ha2, ha3⟩ := assign_poa_state now i bs bf pos st a
    refine ⟨?_, ?_, ?_⟩
    · rw [hi1, ha1, List.append_assoc]
      rfl
    · rw [hi2, ha2]
    · rw [hi3, ha3]

theorem process_poas_state (now : ℚ) (bh : Bool) (pref : NoteTypeEnum × NoteTypeEnum)
    (l : List PoA) (st st2 : BeatSaberHandsPositionsSimulator)
    (h : process_poas now bh pref st l = some st2) :
    (∃ t, st2.coreography_ids = st.coreography_ids ++ t) ∧
    st2.coreography_hand_ids = st.coreography_hand_ids ∧
    st2.last_coreography_hand_ids = st.last_coreography_hand_ids := by
  induction l generalizing st with
  | nil =>
    unfold process_poas at h
    injection h with h2
    subst h2
    exact ⟨⟨[], by simp⟩, rfl, rfl⟩
  | cons poa rest ih =>
    unfold process_poas at h
    by_cases hskip : now ≠ poa.2.1.1 ∧ now ≠ poa.2.1.2
    · rw [if_pos hskip] at h
      exact ih st h
    · rw [if_neg hskip] at h
      dsimp only at h
      by_cases hlen : (available_hands st now).length < 1
      · rw [if_pos hlen] at h
        injection h with h2
        subst h2
        exact ⟨⟨[], by simp⟩, rfl, rfl⟩
      · rw [if_neg hlen] at h
        cases hsel : (if bh then some (available_hands st now)
            else (first_preferred pref (available_hands st now)).map (fun h => [h])) with
        | none =>
          rw [hsel] at h
          exact absurd h (by simp)
        | some active =>
          rw [hsel] at h
          obtain ⟨⟨t, ht⟩, hh, hl⟩ := ih _ h
          obtain ⟨hf1, hf2, hf3⟩ := foldl_assign_state now poa.1 poa.2.1.1 poa.2.1.2
            poa.2.2 active st
          refine ⟨⟨active.map (fun _ => poa.1) ++ t, ?_⟩, ?_, ?_⟩
          · rw [ht, hf1, List.append_assoc]
          · rw [hh, hf2]
          · rw [hl, hf3]

theorem release_hand0_free (st : BeatSaberHandsPositionsSimulator) (now : ℚ)
    (h : st.coreography_hand_ids.1 = -1) : release_hand0 st now = st := by
  unfold release_hand0
  dsimp only
  rw [h]
  simp

theorem release_hand1_free (st : BeatSaberHandsPositionsSimulator) (now : ℚ)
    (h : st.coreography_hand_ids.2 = -1) : release_hand1 st now = st := by
  unfold release_hand1
  dsimp only
  rw [h]
  simp

theorem release_hands_free (st : BeatSaberHandsPositionsSimulator) (now : ℚ)
    (h : st.coreography_hand_ids = (-1, -1)) : release_hands st now = st := by
  unfold release_hands
  rw [release_hand0_free st now (by rw [h]),
    release_hand1_free st now (by rw [h])]

theorem available_hands_free (st : BeatSaberHandsPositionsSimulator) (now : ℚ)
    (h : st.coreography_hand_ids = (-1, -1)) :
    available_hands st now = [NoteTypeEnum.LeftRedNote, NoteTypeEnum.RightBlueNote] := by
  unfold available_hands availCond
  rw [h]
  simp

theorem reachable_free (s : BeatSaberHandsPositionsSimulator) (hs : Reachable s) :
    s.coreography_hand_ids = (-1, -1) := by
  induction hs with
  | init => rfl
  | step s s2 now bh pref poas hr hmove ih =>
    unfold move_to at hmove
    obtain ⟨_, hh, _⟩ := process_poas_state _ _ _ _ _ _ hmove
    rw [release_hands_free s now ih] at hh
    rw [hh]
    exact ih

/-- C10: no move_to call ever writes a non-(-1) value into
coreography_hand_ids, so every reachable simulator state still has both
registers at -1; consequently the release loop is the identity and both
hands are always listed as available, making the release branch and the
busy-hands drop branch unreachable. -/
theorem coreography_hand_ids_never_written (s : BeatSaberHandsPositionsSimulator)
    (hs : Reachable s) :
    s.coreography_hand_ids = (-1, -1) ∧
    ∀ now : ℚ, release_hands s now = s ∧
      available_hands s now = [NoteTypeEnum.LeftRedNote, NoteTypeEnum.RightBlueNote] := by
  have hmain := reachable_free s hs
  exact ⟨hmain, fun now =>
    ⟨release_hands_free s now hmain, available_hands_free s now hmain⟩⟩

/-- C10 witness at the fresh simulator. -/
theorem coreography_hand_ids_never_written_witness :
    initial_simulator.coreography_hand_ids = (-1, -1) ∧
    available_hands initial_simulator 0 =
      [NoteTypeEnum.LeftRedNote, NoteTypeEnum.RightBlueNote] :=
  ⟨(coreography_hand_ids_never_written initial_simulator Reachable.init).1,
   ((coreography_hand_ids_never_written initial_simulator Reachable.init).2 0).2⟩

/-- C1 (corrected): identities are not deduplicated and are not assigned
to exactly one hand: in both-hands mode a single point of attention is
assigned to both hands in the same call, and its identity is appended to
coreography_ids once per hand, hence twice. -/
theorem both_hands_duplicates_identity (s : BeatSaberHandsPositionsSimulator)
    (hs : Reachable s) (now : ℚ) (pref : NoteTypeEnum × NoteTypeEnum) (i : Int)
    (z : NoteCanvasPositionEnum) :
    ∃ s2, move_to s now true pref [(i, (now, now), z)] = some s2 ∧
      s2.coreography_ids = s.coreography_ids ++ [i, i] := by
  have hfree := reachable_free s hs
  unfold move_to
  rw [release_hands_free s now hfree]
  have hsort : stableSort poa_key_le [(i, (now, now), z)] = [(i, (now, now), z)] := rfl
  rw [hsort]
  simp only [process_poas]
  rw [if_neg (by intro hc; exact hc.1 rfl)]
  rw [available_hands_free s now hfree]
  rw [if_neg (by decide)]
  obtain ⟨hf1, _, _⟩ := foldl_assign_state now i now now z
    [NoteTypeEnum.LeftRedNote, NoteTypeEnum.RightBlueNote] s
  exact ⟨_, rfl, by simpa using hf1⟩

/-- C1 counterexample: one both-hands call on a fresh simulator records
the identity 7 twice in coreography_ids. -/
theorem move_to_appends_identity_twice :
    (move_to initial_simulator 0 true
      (NoteTypeEnum.LeftRedNote, NoteTypeEnum.RightBlueNote)
      [((7 : Int), ((0 : ℚ), (0 : ℚ)), NoteCanvasPositionEnum.MidCtr)]).map
      (fun s => s.coreography_ids) = some [7, 7] := by
  rfl

/-- C1 witness at the fresh simulator. -/
theorem both_hands_duplicates_identity_witness :
    ∃ s2, move_to initial_simulator 0 true
      (NoteTypeEnum.LeftRedNote, NoteTypeEnum.RightBlueNote)
      [((7 : Int), ((0 : ℚ), (0 : ℚ)), NoteCanvasPositionEnum.MidCtr)] = some s2 ∧
      s2.coreography_ids = initial_simulator.coreography_ids ++ [7, 7] :=
  both_hands_duplicates_identity initial_simulator Reachable.init 0
    (NoteTypeEnum.LeftRedNote, NoteTypeEnum.RightBlueNote) 7 NoteCanvasPositionEnum.MidCtr

theorem first_preferred_of_valid (pref : NoteTypeEnum × NoteTypeEnum)
    (hpref : pref.1 = NoteTypeEnum.LeftRedNote ∨ pref.1 = NoteTypeEnum.RightBlueNote) :
    first_preferred pref [NoteTypeEnum.LeftRedNote, NoteTypeEnum.RightBlueNote] =
      some pref.1 := by
  unfold first_preferred
  rw [if_pos ?_]
  rcases hpref with h | h <;> rw [h] <;> decide

theorem process_poas_no_drop (now : ℚ) (bh : Bool) (pref : NoteTypeEnum × NoteTypeEnum)
    (l : List PoA) (st : BeatSaberHandsPositionsSimulator)
    (hfree : st.coreography_hand_ids = (-1, -1))
    (hpref : pref.1 = NoteTypeEnum.LeftRedNote ∨ pref.1 = NoteTypeEnum.RightBlueNote) :
    ∃ st2, process_poas now bh pref st l = some st2 ∧
      ∀ p ∈ l, (p.2.1.1 = now ∨ p.2.1.2 = now) → p.1 ∈ st2.coreography_ids := by
  induction l generalizing st with
  | nil => exact ⟨st, rfl, by simp⟩
  | cons poa rest ih =>
    by_cases hskip : now ≠ poa.2.1.1 ∧ now ≠ poa.2.1.2
    · obtain ⟨st2, heq, hmem⟩ := ih st hfree
      refine ⟨st2, ?_, ?_⟩
      · simp only [process_poas]
        rw [if_pos hskip]
        exact heq
      · intro p hp hcond
        rcases List.mem_cons.mp hp with rfl | htail
        · rcases hcond with hc | hc
          · exact absurd hc.symm hskip.1
          · exact absurd hc.symm hskip.2
        · exact hmem p htail hcond
    · have havail := available_hands_free st now hfree
      have hsel : (if bh then some (available_hands st now)
          else (first_preferred pref (available_hands st now)).map (fun h => [h])) =
          some (if bh then [NoteTypeEnum.LeftRedNote, NoteTypeEnum.RightBlueNote]
                else [pref.1]) := by
        cases bh
        · rw [havail]
          simp only [Bool.false_eq_true, if_false]
          rw [first_preferred_of_valid pref hpref]
          rfl
        · rw [havail]
          rfl
      obtain ⟨hf1, hf2, hf3⟩ := foldl_assign_state now poa.1 poa.2.1.1 poa.2.1.2 poa.2.2
        (if bh then [NoteTypeEnum.LeftRedNote, NoteTypeEnum.RightBlueNote] else [pref.1])
        st
      have hfree2 : ((if bh then [NoteTypeEnum.LeftRedNote, NoteTypeEnum.RightBlueNote]
          else [pref.1]).foldl
            (fun s h => assign_poa now poa.1 poa.2.1.1 poa.2.1.2 poa.2.2 s h)
            st).coreography_hand_ids = (-1, -1) := by
        rw [hf2]
        exact hfree
      obtain ⟨st2, heq, hmem⟩ := ih _ hfree2
      refine ⟨st2, ?_, ?_⟩
      · simp only [process_poas]
        rw [if_neg hskip, havail]
        rw [if_neg (by decide)]
        rw [havail] at hsel
        rw [hsel]
        exact heq
      · intro p hp hcond
        rcases List.mem_cons.mp hp with rfl | htail
        · have h1 : p.1 ∈ ((if bh then
              [NoteTypeEnum.LeftRedNote, NoteTypeEnum.RightBlueNote]
              else [pref.1]).foldl
                (fun s h => assign_poa now p.1 p.2.1.1 p.2.1.2 p.2.2 s h)
                st).coreography_ids := by
            rw [hf1]
            apply List.mem_append_right
            cases bh <;> simp
          obtain ⟨⟨t, ht⟩, _, _⟩ := process_poas_state _ _ _ _ _ _ heq
          rw [ht]
          exact List.mem_append_left _ h1
        · exact hmem p htail hcond

/-- C4 (corrected): nothing is ever silently dropped, because hands are
never marked busy: from any reachable state, with a real preferred hand,
move_to succeeds and every point of attention whose start or finish
equals now has its identity recorded, even when more simultaneous points
arrive than there are hands. -/
theorem move_to_assigns_every_current_point (s : BeatSaberHandsPositionsSimulator)
    (hs : Reachable s) (now : ℚ) (bh : Bool) (pref : NoteTypeEnum × NoteTypeEnum)
    (poas : List PoA)
    (hpref : pref.1 = NoteTypeEnum.LeftRedNote ∨ pref.1 = NoteTypeEnum.RightBlueNote) :
    ∃ s2, move_to s now bh pref poas = some s2 ∧
      ∀ p ∈ poas, (p.2.1.1 = now ∨ p.2.1.2 = now) → p.1 ∈ s2.coreography_ids := by
  have hfree := reachable_free s hs
  unfold move_to
  rw [release_hands_free s now hfree]
  obtain ⟨s2, heq, hmem⟩ :=
    process_poas_no_drop now bh pref (stableSort poa_key_le poas) s hfree hpref
  exact ⟨s2, heq, fun p hp hc => hmem p ((mem_stableSort _ p poas).mpr hp) hc⟩

/-- C4 counterexample: three simultaneous instantaneous points against
two hands on a fresh simulator are ALL assigned (ids [1, 2, 3]); no
lowest-priority point is dropped, because the busy-hands branch never
fires. -/
theorem three_simultaneous_points_all_assigned :
    (move_to initial_simulator 0 false
      (NoteTypeEnum.LeftRedNote, NoteTypeEnum.RightBlueNote)
      [((1 : Int), ((0 : ℚ), (0 : ℚ)), NoteCanvasPositionEnum.TopLft),
       ((2 : Int), ((0 : ℚ), (0 : ℚ)), NoteCanvasPositionEnum.TopCtr),
       ((3 : Int), ((0 : ℚ), (0 : ℚ)), NoteCanvasPositionEnum.TopRgt)]).map
      (fun s => s.coreography_ids) = some [1, 2, 3] := by
  rfl

/-- C4 witness at the fresh simulator with one current point. -/
theorem move_to_assigns_every_current_point_witness :
    ∃ s2, move_to initial_simulator 0 false
      (NoteTypeEnum.LeftRedNote, NoteTypeEnum.RightBlueNote)
      [((7 : Int), ((0 : ℚ), (0 : ℚ)), NoteCanvasPositionEnum.TopLft)] = some s2 ∧
      (7 : Int) ∈ s2.coreography_ids := by
  obtain ⟨s2, heq, hmem⟩ := move_to_assigns_every_current_point initial_simulator
    Reachable.init 0 false (NoteTypeEnum.LeftRedNote, NoteTypeEnum.RightBlueNote)
    [((7 : Int), ((0 : ℚ), (0 : ℚ)), NoteCanvasPositionEnum.TopLft)] (Or.inl rfl)
  exact ⟨s2, heq, hmem _ (List.mem_singleton.mpr rfl) (Or.inl rfl)⟩

/-- C3 (corrected): a busy hand is released exactly when now strictly
exceeds the record's finish (at now = finish it stays busy), the on-arc
flag is cleared at the transition, and an on-arc hand's facing direction
IS flipped to its opposite at that transition (it is unchanged only for
a hand that was not on an arc). -/
theorem busy_hand_release_transition (st : BeatSaberHandsPositionsSimulator) (now : ℚ) :
    (∀ r, st.coreography_hand_ids.1 ≠ -1 →
      lookupC st.coreography_contents st.coreography_hand_ids.1 = some r →
      ((¬ r.beat_finish < now → release_hand0 st now = st) ∧
       (r.beat_finish < now →
        (release_hand0 st now).coreography_hand_ids.1 = -1 ∧
        (release_hand0 st now).last_coreography_hand_ids.1 = st.coreography_hand_ids.1 ∧
        (release_hand0 st now).hand0.on_arc = false ∧
        (release_hand0 st now).hand0.direction =
          (if st.hand0.on_arc then st.hand0.direction.opposite
           else st.hand0.direction)))) ∧
    (∀ r, st.coreography_hand_ids.2 ≠ -1 →
      lookupC st.coreography_contents st.coreography_hand_ids.2 = some r →
      ((¬ r.beat_finish < now → release_hand1 st now = st) ∧
       (r.beat_finish < now →
        (release_hand1 st now).coreography_hand_ids.2 = -1 ∧
        (release_hand1 st now).last_coreography_hand_ids.2 = st.coreography_hand_ids.2 ∧
        (release_hand1 st now).hand1.on_arc = false ∧
        (release_hand1 st now).hand1.direction =
          (if st.hand1.on_arc then st.hand1.direction.opposite
           else st.hand1.direction)))) := by
  constructor
  · intro r hbusy hr
    have hcond : ((st.coreography_hand_ids.1 != -1) &&
        ((lookupC st.coreography_contents st.coreography_hand_ids.1).elim false
          (fun r2 => decide (r2.beat_finish < now)))) = decide (r.beat_finish < now) := by
      rw [hr]
      simp [Option.elim, bne_iff_ne, hbusy]
    constructor
    · intro hnot
      unfold release_hand0
      dsimp only
      rw [hcond, if_neg (by simpa using hnot)]
    · intro hlt
      unfold release_hand0
      dsimp only
      rw [hcond, if_pos (decide_eq_true hlt)]
      split
      · exact ⟨rfl, rfl, rfl, rfl⟩
      · next h =>
        have h2 : st.hand0.on_arc = false := by
          cases hb : st.hand0.on_arc
          · rfl
          · exact absurd hb h
        exact ⟨rfl, rfl, h2, rfl⟩
  · intro r hbusy hr
    have hcond : ((st.coreography_hand_ids.2 != -1) &&
        ((lookupC st.coreography_contents st.coreography_hand_ids.2).elim false
          (fun r2 => decide (r2.beat_finish < now)))) = decide (r.beat_finish < now) := by
      rw [hr]
      simp [Option.elim, bne_iff_ne, hbusy]
    constructor
    · intro hnot
      unfold release_hand1
      dsimp only
      rw [hcond, if_neg (by simpa using hnot)]
    · intro hlt
      unfold release_hand1
      dsimp only
      rw [hcond, if_pos (decide_eq_true hlt)]
      split
      · exact ⟨rfl, rfl, rfl, rfl⟩
      · next h =>
        have h2 : st.hand1.on_arc = false := by
          cases hb : st.hand1.on_arc
          · rfl
          · exact absurd hb h
        exact ⟨rfl, rfl, h2, rfl⟩

/-- C3 counterexample: hand 0 is busy on a record with finish 2 and is
still on an arc with direction Down.  At now = 2 (now equals finish) the
hand is NOT released, contradicting release at now greater or equal
finish; at now = 3 the hand is released and its direction is flipped
from Down to Up, contradicting that the direction is unchanged. -/
theorem release_boundary_and_flip_example :
    (release_hands busy_state 2).coreography_hand_ids = (5, -1) ∧
    (release_hands busy_state 3).coreography_hand_ids = (-1, -1) ∧
    busy_state.hand0.direction = NoteCutDirectionEnum.Down ∧
    busy_state.hand0.on_arc = true ∧
    (release_hands busy_state 3).hand0.direction = NoteCutDirectionEnum.Up := by
  refine ⟨by decide, by decide, rfl, rfl, by decide⟩

/-- C3 witness: the release characterization applied to the concrete
busy state at now = 3. -/
theorem busy_hand_release_transition_witness :
    (release_hand0 busy_state 3).coreography_hand_ids.1 = -1 ∧
    (release_hand0 busy_state 3).hand0.on_arc = false :=
  ⟨(((busy_hand_release_transition busy_state 3).1 busy_record (by decide) rfl).2
      (by norm_num [busy_record])).1,
   (((busy_hand_release_transition busy_state 3).1 busy_record (by decide) rfl).2
      (by norm_num [busy_record])).2.2.1⟩
